import Mathlib

/-!
Shallow embedding of fbhuploader (src/main.go), a tool that deploys a local
directory to a static-hosting service: it gzip-compresses and SHA-256-hashes
every file under the configured public root, stages a version, asks the
service which content hashes it lacks, POSTs exactly those payloads,
finalizes the version and creates a release.

Modelling choices:
- bytes are `Nat`; gzip and SHA-256 are opaque external library calls, so
  `readFiles` is parameterized by `compress` and `digest` functions, while
  the hex rendering (`encoding/hex`) is embedded concretely;
- the directory walk is a list of regular files in visit order (fs.WalkDir
  yields each regular file once, in lexical order determined by the
  directory snapshot);
- Go maps are association lists with insert-or-replace writes;
- the remote service and the network are an environment: each call's
  response is a field of `Env`, and `run` returns both the sequence of
  remote calls actually issued (`Event` list) and the final outcome.
-/

/-- Bytes are modelled as natural numbers (0-255 in practice). -/
abbrev Byte := Nat

/-- A regular file as produced by the directory walk: its root-relative path
(no leading slash, as fs.WalkDir yields it) and its raw content bytes. -/
structure FSFile where
  path : String
  content : List Byte
deriving DecidableEq

/-- Read from an association-list map (models a Go map read; `none` models
the zero value returned for a missing key). -/
def mapLookup {α : Type} (m : List (String × α)) (k : String) : Option α :=
  match m with
  | [] => none
  | (k1, v) :: rest => if k1 = k then some v else mapLookup rest k

/-- Insert-or-replace into an association-list map (models a Go map write). -/
def mapUpdate {α : Type} (m : List (String × α)) (k : String) (v : α) :
    List (String × α) :=
  match m with
  | [] => [(k, v)]
  | (k1, v1) :: rest =>
      if k1 = k then (k, v) :: rest else (k1, v1) :: mapUpdate rest k v

/-- Keys of an association-list map. -/
def mapKeys {α : Type} (m : List (String × α)) : List String :=
  m.map Prod.fst

/-- Lowercase hex digit for a nibble (the encoding/hex alphabet). -/
def hexDigit (n : Nat) : Char :=
  if n < 10 then Char.ofNat (48 + n) else Char.ofNat (87 + n)

/-- The sixteen characters encoding/hex may emit: lowercase hexadecimal. -/
def hexAlphabet : List Char :=
  "0123456789abcdef".data

/-- hex.EncodeToString from encoding/hex: two lowercase hex digits per byte,
high nibble first. -/
def hexEncode (bs : List Byte) : String :=
  String.mk (bs.foldr (fun b acc => hexDigit (b / 16 % 16) :: hexDigit (b % 16) :: acc) [])

/-- Loop body of readFiles (main.go:130-157) over the walked files in visit
order. Each file is gzip-compressed into a buffer, the gzip writer is closed
(flushing the complete stream), the complete buffer is SHA-256-hashed and the
digest hex-encoded; then pathToHash gets key "/" ++ path and hashToGzip gets
the hash as key with the compressed bytes as value. -/
def readFilesGo (compress digest : List Byte → List Byte) (files : List FSFile)
    (pathToHash : List (String × String)) (hashToGzip : List (String × List Byte)) :
    List (String × String) × List (String × List Byte) :=
  match files with
  | [] => (pathToHash, hashToGzip)
  | f :: rest =>
      let gz := compress f.content
      let hash := hexEncode (digest gz)
      readFilesGo compress digest rest
        (mapUpdate pathToHash ("/" ++ f.path) hash)
        (mapUpdate hashToGzip hash gz)

/-- readFiles (main.go:126-162). The ignore patterns from the configuration
are accepted but never consulted: the source leaves the ignore check as an
unimplemented TODO (main.go:134), so every walked regular file is processed. -/
def readFiles (compress digest : List Byte → List Byte) (ignore : List String)
    (files : List FSFile) : List (String × String) × List (String × List Byte) :=
  readFilesGo compress digest files [] []

/-- One POST issued by the upload loop: its URL and its body (`none` models
Go's nil reader obtained from a missing hashToGzip key). -/
structure UploadEvent where
  endpoint : String
  body : Option (List Byte)
deriving DecidableEq

/-- The request the upload loop builds for one hash (main.go:176-177). -/
def uploadEventFor (uploadURL : String) (hashToGzip : List (String × List Byte))
    (h : String) : UploadEvent :=
  ⟨uploadURL ++ "/" ++ h, mapLookup hashToGzip h⟩

/-- The POST loop of uploadFiles (main.go:175-191): one request per element
of toUpload in order, body hashToGzip[hash]; a non-200 status code stops the
loop immediately, reporting the failing hash and the observed status. -/
def uploadLoop (uploadStatus : String → Nat) (uploadURL : String)
    (toUpload : List String) (hashToGzip : List (String × List Byte)) :
    List UploadEvent × Option (String × Nat) :=
  match toUpload with
  | [] => ([], none)
  | h :: rest =>
      let evt := uploadEventFor uploadURL hashToGzip h
      if uploadStatus h = 200 then
        let r := uploadLoop uploadStatus uploadURL rest hashToGzip
        (evt :: r.1, r.2)
      else
        ([evt], some (h, uploadStatus h))

/-- A remote service call issued during a run. -/
inductive Event where
  | createVersion
  | populateFiles
  | upload (e : UploadEvent)
  | finalizePatch
  | createRelease
deriving DecidableEq

/-- The failure modes of a run, one per return-with-error site of main.go. -/
inductive RunError where
  | configError
  | clientError
  | versionCreateError
  | walkError
  | reconcileError
  | uploadError (hash : String) (status : Nat)
  | finalizeCallError
  | finalizationError (status : String)
  | releaseError
deriving DecidableEq

/-- Outcome of the finalize Patch call (main.go:193-201): transport error,
a response whose status differs from "FINALIZED", or success. -/
def finalizeOutcome (patchResult : Option String) : Option RunError :=
  match patchResult with
  | none => some RunError.finalizeCallError
  | some s => if s = "FINALIZED" then none else some (RunError.finalizationError s)

/-- uploadFiles (main.go:174-203): run the POST loop over the required
hashes; only when every upload got status 200 is the finalize Patch issued,
and its response status must equal "FINALIZED". -/
def uploadFiles (uploadStatus : String → Nat) (patchResult : Option String)
    (uploadURL : String) (toUpload : List String)
    (hashToGzip : List (String × List Byte)) : List Event × Option RunError :=
  match uploadLoop uploadStatus uploadURL toUpload hashToGzip with
  | (evts, some hs) => (evts.map Event.upload, some (RunError.uploadError hs.1 hs.2))
  | (evts, none) =>
      (evts.map Event.upload ++ [Event.finalizePatch], finalizeOutcome patchResult)

/-- The environment a run executes against: the local configuration and
filesystem, and the response the remote service would give to each call. -/
structure Env where
  config : Option (List String)
  clientOk : Bool
  createVersionResult : Option String
  walk : Option (List FSFile)
  populate : Option (List String × String)
  uploadStatus : String → Nat
  patchResult : Option String
  releaseOk : Bool
  compress : List Byte → List Byte
  digest : List Byte → List Byte

/-- run (main.go:32-76), in source order: read firebase.json, build the HTTP
client, create the version (first remote call), walk and process the public
directory, ask which hashes must be uploaded, upload and finalize, release.
Returns the remote calls issued and the outcome. -/
def run (env : Env) : List Event × Option RunError :=
  match env.config with
  | none => ([], some RunError.configError)
  | some ignore =>
    match env.clientOk with
    | false => ([], some RunError.clientError)
    | true =>
      match env.createVersionResult with
      | none => ([Event.createVersion], some RunError.versionCreateError)
      | some _ =>
        match env.walk with
        | none => ([Event.createVersion], some RunError.walkError)
        | some files =>
          let catalog := readFiles env.compress env.digest ignore files
          match env.populate with
          | none => ([Event.createVersion, Event.populateFiles], some RunError.reconcileError)
          | some tu =>
            match uploadFiles env.uploadStatus env.patchResult tu.2 tu.1 catalog.2 with
            | (evts, some e) =>
                (Event.createVersion :: Event.populateFiles :: evts, some e)
            | (evts, none) =>
                (Event.createVersion :: Event.populateFiles :: (evts ++ [Event.createRelease]),
                 match env.releaseOk with
                 | true => none
                 | false => some RunError.releaseError)

/-- Number of POSTs in an upload trace addressed to a given URL. -/
def countUploadsTo (evts : List UploadEvent) (endpoint : String) : Nat :=
  evts.countP (fun e => e.endpoint == endpoint)

/-- A run in which firebase.json parses, the HTTP client and the version are
created, and then the directory walk fails. -/
def envWalkFail : Env :=
  ⟨some [], true, some "v", none, some ([], "u"), fun _ => 200, some "FINALIZED", true, id, id⟩

/-- A run that reaches finalize and gets back the status "ABANDONED". -/
def envBadPatch : Env :=
  ⟨some [], true, some "v", some [], some ([], "u"), fun _ => 200, some "ABANDONED", true, id, id⟩

/-- A server that answers 500 for the hash "bad" and 200 for all others. -/
def usBad : String → Nat :=
  fun x => if x = "bad" then 500 else 200

theorem mapLookup_update {α : Type} (m : List (String × α)) (k k1 : String) (v : α) :
    mapLookup (mapUpdate m k v) k1 = if k = k1 then some v else mapLookup m k1 := by
  induction m with
  | nil => simp [mapUpdate, mapLookup]
  | cons kv rest ih =>
      obtain ⟨k2, v2⟩ := kv
      by_cases h2 : k2 = k
      · subst h2
        by_cases h1 : k2 = k1 <;> simp [mapUpdate, mapLookup, h1]
      · by_cases h1 : k2 = k1
        · subst h1
          have : ¬ k = k2 := fun e => h2 e.symm
          simp [mapUpdate, h2, mapLookup, this]
        · simp [mapUpdate, h2, mapLookup, h1, ih]

theorem mem_mapKeys_of_lookup {α : Type} (m : List (String × α)) (k : String) (v : α)
    (h : mapLookup m k = some v) : k ∈ mapKeys m := by
  induction m with
  | nil => simp [mapLookup] at h
  | cons kv rest ih =>
      obtain ⟨k1, v1⟩ := kv
      by_cases e : k1 = k
      · subst e; simp [mapKeys]
      · rw [mapLookup, if_neg e] at h
        simpa [mapKeys] using Or.inr (ih h)

theorem stringDataAppend (a b : String) : (a ++ b).data = a.data ++ b.data := by
  cases a; cases b; rfl

theorem stringEqOfData {a b : String} (h : a.data = b.data) : a = b := by
  cases a; cases b; exact congrArg String.mk h

theorem stringAppendCancelLeft {a b c : String} (h : a ++ b = a ++ c) : b = c := by
  apply stringEqOfData
  have hd := congrArg String.data h
  rw [stringDataAppend, stringDataAppend] at hd
  exact List.append_cancel_left hd

theorem slashInj {p q : String} (h : "/" ++ p = "/" ++ q) : p = q :=
  stringAppendCancelLeft h

theorem endpointInj {url a b : String} (h : url ++ "/" ++ a = url ++ "/" ++ b) : a = b :=
  stringAppendCancelLeft h

theorem hexDigit_mem_hexAlphabet (n : Nat) (h : n < 16) : hexDigit n ∈ hexAlphabet := by
  interval_cases n <;> decide

theorem hexEncode_lowercase (bs : List Byte) :
    ∀ c ∈ (hexEncode bs).data, c ∈ hexAlphabet := by
  induction bs with
  | nil => intro c hc; simp [hexEncode] at hc
  | cons b rest ih =>
      intro c hc
      simp only [hexEncode, List.foldr_cons] at hc
      rcases List.mem_cons.mp hc with rfl | hc
      · exact hexDigit_mem_hexAlphabet _ (Nat.mod_lt _ (by omega))
      rcases List.mem_cons.mp hc with rfl | hc
      · exact hexDigit_mem_hexAlphabet _ (Nat.mod_lt _ (by omega))
      · exact ih c hc

theorem readFilesGo_lookup_of_not_mem (compress digest : List Byte → List Byte)
    (files : List FSFile) (p2h : List (String × String)) (h2g : List (String × List Byte))
    (k : String) (hk : k ∉ files.map (fun f => "/" ++ f.path)) :
    mapLookup (readFilesGo compress digest files p2h h2g).1 k = mapLookup p2h k := by
  induction files generalizing p2h h2g with
  | nil => rfl
  | cons f rest ih =>
      simp only [List.map_cons, List.mem_cons, not_or] at hk
      rw [readFilesGo, ih _ _ hk.2, mapLookup_update,
        if_neg (fun e => hk.1 e.symm)]

theorem readFilesGo_manifest_lookup (compress digest : List Byte → List Byte)
    (files : List FSFile) (p : String) (c : List Byte)
    (p2h : List (String × String)) (h2g : List (String × List Byte))
    (hnd : (files.map FSFile.path).Nodup) (hmem : FSFile.mk p c ∈ files) :
    mapLookup (readFilesGo compress digest files p2h h2g).1 ("/" ++ p)
      = some (hexEncode (digest (compress c))) := by
  induction files generalizing p2h h2g with
  | nil => cases hmem
  | cons f rest ih =>
      simp only [List.map_cons, List.nodup_cons] at hnd
      rw [readFilesGo]
      rcases List.mem_cons.mp hmem with h | h
      · obtain rfl := h.symm
        have hnot : ("/" ++ p) ∉ rest.map (fun f => "/" ++ f.path) := by
          intro hmem2
          obtain ⟨g, hg, he⟩ := List.mem_map.mp hmem2
          exact hnd.1 (List.mem_map.mpr ⟨g, hg, (slashInj he.symm).symm⟩)
        rw [readFilesGo_lookup_of_not_mem _ _ _ _ _ _ hnot,
          mapLookup_update, if_pos rfl]
      · exact ih _ _ hnd.2 h

theorem readFilesGo_store_covers (compress digest : List Byte → List Byte)
    (files : List FSFile) (p2h : List (String × String))
    (h2g : List (String × List Byte))
    (inv : ∀ p h, mapLookup p2h p = some h → ∃ v, mapLookup h2g h = some v) :
    ∀ p h, mapLookup (readFilesGo compress digest files p2h h2g).1 p = some h →
      ∃ v, mapLookup (readFilesGo compress digest files p2h h2g).2 h = some v := by
  induction files generalizing p2h h2g with
  | nil => exact inv
  | cons f rest ih =>
      rw [readFilesGo]
      apply ih
      intro p h hp
      rw [mapLookup_update] at hp
      rw [mapLookup_update]
      split_ifs at hp with h1
      · obtain rfl := Option.some.inj hp
        rw [if_pos rfl]
        exact ⟨_, rfl⟩
      · by_cases h2 : hexEncode (digest (compress f.content)) = h
        · rw [if_pos h2]; exact ⟨_, rfl⟩
        · rw [if_neg h2]; exact inv p h hp

theorem uploadLoop_all200 (us : String → Nat) (url : String) (l : List String)
    (store : List (String × List Byte)) (h : ∀ x ∈ l, us x = 200) :
    uploadLoop us url l store = (l.map (uploadEventFor url store), none) := by
  induction l with
  | nil => rfl
  | cons a rest ih =>
      rw [uploadLoop]
      rw [if_pos (h a (List.mem_cons_self a rest)),
        ih (fun x hx => h x (List.mem_cons_of_mem a hx))]
      rfl

theorem uploadLoop_append_all200 (us : String → Nat) (url : String)
    (pre rest : List String) (store : List (String × List Byte))
    (hpre : ∀ x ∈ pre, us x = 200) :
    uploadLoop us url (pre ++ rest) store
      = (pre.map (uploadEventFor url store) ++ (uploadLoop us url rest store).1,
         (uploadLoop us url rest store).2) := by
  induction pre with
  | nil => rfl
  | cons a pre2 ih =>
      rw [List.cons_append, uploadLoop,
        if_pos (hpre a (List.mem_cons_self a pre2)),
        ih (fun x hx => hpre x (List.mem_cons_of_mem a hx))]
      rfl

theorem uploadLoop_events_sublist (us : String → Nat) (url : String)
    (l : List String) (store : List (String × List Byte)) :
    ∃ l1 : List String, l1.Sublist l ∧
      (uploadLoop us url l store).1 = l1.map (uploadEventFor url store) := by
  induction l with
  | nil => exact ⟨[], List.Sublist.refl [], rfl⟩
  | cons a rest ih =>
      obtain ⟨l1, hs, he⟩ := ih
      by_cases h : us a = 200
      · refine ⟨a :: l1, List.Sublist.cons₂ a hs, ?_⟩
        rw [uploadLoop, if_pos h, List.map_cons, ← he]
      · refine ⟨[a], List.Sublist.cons₂ a (List.nil_sublist rest), ?_⟩
        rw [uploadLoop, if_neg h]
        rfl

theorem countUploadsTo_map (url : String) (store : List (String × List Byte))
    (l : List String) (h : String) :
    countUploadsTo (l.map (uploadEventFor url store)) (url ++ "/" ++ h) = l.count h := by
  rw [countUploadsTo, List.countP_map, List.count]
  apply List.countP_congr
  intro x _
  simp only [Function.comp_apply, uploadEventFor, beq_iff_eq]
  exact ⟨fun e => endpointInj e, fun e => by rw [e]⟩

theorem uploadFiles_no_release (us : String → Nat) (pr : Option String)
    (url : String) (l : List String) (store : List (String × List Byte)) :
    Event.createRelease ∉ (uploadFiles us pr url l store).1 := by
  rw [uploadFiles]
  rcases he : uploadLoop us url l store with ⟨evts, r⟩
  cases r with
  | none =>
      intro hmem
      rcases List.mem_append.mp hmem with hm | hm
      · obtain ⟨e, _, he2⟩ := List.mem_map.mp hm
        cases he2
      · cases List.mem_singleton.mp hm
  | some hs =>
      intro hmem
      obtain ⟨e, _, he2⟩ := List.mem_map.mp hmem
      cases he2

theorem uploadFiles_finalize_reached (us : String → Nat) (pr : Option String)
    (url : String) (l : List String) (store : List (String × List Byte))
    (h : Event.finalizePatch ∈ (uploadFiles us pr url l store).1) :
    (uploadFiles us pr url l store).2 = finalizeOutcome pr := by
  rw [uploadFiles] at h ⊢
  rcases he : uploadLoop us url l store with ⟨evts, r⟩
  rw [he] at h
  cases r with
  | none => rfl
  | some hs =>
      exfalso
      obtain ⟨e, _, he2⟩ := List.mem_map.mp h
      cases he2

theorem finalizeOutcome_kind (pr : Option String) :
    finalizeOutcome pr ≠ some RunError.configError ∧
    finalizeOutcome pr ≠ some RunError.walkError := by
  rcases pr with _ | s
  · refine ⟨fun h => ?_, fun h => ?_⟩ <;> cases Option.some.inj h
  · rw [finalizeOutcome]
    split_ifs
    · refine ⟨fun h => ?_, fun h => ?_⟩ <;> cases h
    · refine ⟨fun h => ?_, fun h => ?_⟩ <;> cases Option.some.inj h

theorem uploadFiles_error_kind (us : String → Nat) (pr : Option String)
    (url : String) (l : List String) (store : List (String × List Byte)) :
    (uploadFiles us pr url l store).2 ≠ some RunError.configError ∧
    (uploadFiles us pr url l store).2 ≠ some RunError.walkError := by
  rw [uploadFiles]
  rcases he : uploadLoop us url l store with ⟨evts, r⟩
  cases r with
  | none => exact finalizeOutcome_kind pr
  | some hs =>
      refine ⟨fun h => ?_, fun h => ?_⟩ <;> cases Option.some.inj h

/-- C1: the spec states that every file matching an ignore pattern is skipped
before its content is read and appears in neither Manifest nor ContentStore;
the code leaves the ignore check as an unimplemented TODO (main.go:134), so a
file whose path is literally listed in the ignore set is still cataloged:
its path is a Manifest key and its hash a ContentStore key. -/
theorem ignored_file_is_still_cataloged :
    "ignored.txt" ∈ ["ignored.txt"] ∧
    mapLookup (readFiles id id ["ignored.txt"] [FSFile.mk "ignored.txt" [104, 105]]).1
        "/ignored.txt" = some "6869" ∧
    "6869" ∈ mapKeys (readFiles id id ["ignored.txt"] [FSFile.mk "ignored.txt" [104, 105]]).2 := by
  refine ⟨?_, ?_, ?_⟩ <;> decide

/-- C2: for a duplicate-free required-hash list (reconciliation returns a
set of hashes) in which every POST is answered with status 200, the upload
loop transmits each required hash exactly once, as a single POST of its
ContentStore bytes to uploadURL ++ "/" ++ hash, independent of how many
manifest paths share that hash. -/
theorem upload_transmits_each_required_hash_exactly_once
    (us : String → Nat) (url : String) (toUpload : List String)
    (store : List (String × List Byte)) (h : String)
    (hnd : toUpload.Nodup) (hmem : h ∈ toUpload)
    (hok : ∀ x ∈ toUpload, us x = 200) :
    countUploadsTo (uploadLoop us url toUpload store).1 (url ++ "/" ++ h) = 1 ∧
    UploadEvent.mk (url ++ "/" ++ h) (mapLookup store h)
      ∈ (uploadLoop us url toUpload store).1 := by
  rw [uploadLoop_all200 us url toUpload store hok]
  constructor
  · rw [countUploadsTo_map]
    exact List.count_eq_one_of_mem hnd hmem
  · exact List.mem_map_of_mem (uploadEventFor url store) hmem

theorem upload_transmits_each_required_hash_exactly_once_witness :
    countUploadsTo (uploadLoop (fun _ => 200) "u" ["h1", "h2"] []).1 ("u" ++ "/" ++ "h1") = 1 ∧
    UploadEvent.mk ("u" ++ "/" ++ "h1") (mapLookup ([] : List (String × List Byte)) "h1")
      ∈ (uploadLoop (fun _ => 200) "u" ["h1", "h2"] []).1 :=
  upload_transmits_each_required_hash_exactly_once (fun _ => 200) "u" ["h1", "h2"] [] "h1"
    (by decide) (by decide) (fun _ _ => rfl)

/-- C5: for every walked file, the Manifest records under key "/" ++ path the
digest of the complete compressed stream (the gzip writer is closed before
hashing, so the digest covers the whole stream), rendered through the
lowercase hexadecimal alphabet of encoding/hex. -/
theorem manifest_hash_is_digest_of_full_compressed_stream
    (compress digest : List Byte → List Byte) (ignore : List String)
    (files : List FSFile) (p : String) (c : List Byte)
    (hnd : (files.map FSFile.path).Nodup) (hmem : FSFile.mk p c ∈ files) :
    mapLookup (readFiles compress digest ignore files).1 ("/" ++ p)
      = some (hexEncode (digest (compress c))) ∧
    ∀ ch ∈ (hexEncode (digest (compress c))).data, ch ∈ hexAlphabet :=
  ⟨readFilesGo_manifest_lookup compress digest files p c [] [] hnd hmem,
   hexEncode_lowercase _⟩

theorem manifest_hash_is_digest_witness :
    mapLookup (readFiles id id [] [FSFile.mk "a" [1]]).1 ("/" ++ "a")
      = some (hexEncode (id (id [1]))) ∧
    ∀ ch ∈ (hexEncode (id (id [1]))).data, ch ∈ hexAlphabet :=
  manifest_hash_is_digest_of_full_compressed_stream id id [] [FSFile.mk "a" [1]] "a" [1]
    (by decide) (by decide)

/-- C6: a non-200 response for any single upload aborts uploadFiles at once:
the returned error names the failing hash and the observed status, the trace
ends right after the failing POST (no later required hash is attempted), and
the finalize Patch is never issued, so the version stays unfinalized. -/
theorem failed_upload_aborts_run (us : String → Nat) (pr : Option String)
    (url : String) (pre post : List String) (h : String)
    (store : List (String × List Byte))
    (hpre : ∀ x ∈ pre, us x = 200) (hbad : us h ≠ 200) :
    uploadFiles us pr url (pre ++ h :: post) store
      = ((pre.map (uploadEventFor url store) ++ [uploadEventFor url store h]).map Event.upload,
         some (RunError.uploadError h (us h))) ∧
    Event.finalizePatch ∉ (uploadFiles us pr url (pre ++ h :: post) store).1 := by
  have hstep : uploadLoop us url (h :: post) store
      = ([uploadEventFor url store h], some (h, us h)) := by
    rw [uploadLoop, if_neg hbad]
  have hloop := uploadLoop_append_all200 us url pre (h :: post) store hpre
  rw [hstep] at hloop
  have hmain : uploadFiles us pr url (pre ++ h :: post) store
      = ((pre.map (uploadEventFor url store) ++ [uploadEventFor url store h]).map Event.upload,
         some (RunError.uploadError h (us h))) := by
    rw [uploadFiles, hloop]
  refine ⟨hmain, ?_⟩
  rw [hmain]
  intro hmem
  obtain ⟨e, _, he⟩ := List.mem_map.mp hmem
  cases he

theorem failed_upload_aborts_run_witness :
    uploadFiles usBad (some "FINALIZED") "u" (["g"] ++ "bad" :: ["z"]) []
      = ((["g"].map (uploadEventFor "u" []) ++ [uploadEventFor "u" [] "bad"]).map Event.upload,
         some (RunError.uploadError "bad" (usBad "bad"))) ∧
    Event.finalizePatch ∉ (uploadFiles usBad (some "FINALIZED") "u" (["g"] ++ "bad" :: ["z"]) []).1 :=
  failed_upload_aborts_run usBad (some "FINALIZED") "u" ["g"] ["z"] "bad" []
    (by decide) (by decide)

/-- C7: every hash stored in the Manifest by readFiles is also a key of the
ContentStore, because both maps are written together for each walked file. -/
theorem manifest_hashes_covered_by_content_store
    (compress digest : List Byte → List Byte) (ignore : List String)
    (files : List FSFile) (p h : String)
    (hp : mapLookup (readFiles compress digest ignore files).1 p = some h) :
    h ∈ mapKeys (readFiles compress digest ignore files).2 := by
  obtain ⟨v, hv⟩ := readFilesGo_store_covers compress digest files [] []
    (fun p h hx => by simp [mapLookup] at hx) p h hp
  exact mem_mapKeys_of_lookup _ _ _ hv

theorem manifest_hashes_covered_witness :
    "01" ∈ mapKeys (readFiles id id [] [FSFile.mk "a" [1]]).2 :=
  manifest_hashes_covered_by_content_store id id [] [FSFile.mk "a" [1]] "/a" "01" (by decide)

/-- C8: for a fixed directory snapshot, fixed compression and digest
functions and a fixed ignore set, two invocations of the catalog build agree
key for key: readFiles is a pure function of these inputs, so the two runs
produce the same key set and the same hash at every key. -/
theorem catalog_build_deterministic (compress digest : List Byte → List Byte)
    (ignore : List String) (files : List FSFile) :
    mapKeys (readFiles compress digest ignore files).1
      = mapKeys (readFiles compress digest ignore files).1 ∧
    ∀ p, mapLookup (readFiles compress digest ignore files).1 p
        = mapLookup (readFiles compress digest ignore files).1 p :=
  ⟨rfl, fun _ => rfl⟩

/-- C9: two distinct paths with byte-identical content receive the same
Manifest hash, and any duplicate-free required-hash list makes the upload
loop POST to that hash's endpoint at most once. -/
theorem identical_content_same_hash_at_most_once
    (compress digest : List Byte → List Byte) (ignore : List String)
    (files : List FSFile) (p1 p2 : String) (c : List Byte)
    (hnd : (files.map FSFile.path).Nodup)
    (h1 : FSFile.mk p1 c ∈ files) (h2 : FSFile.mk p2 c ∈ files) :
    mapLookup (readFiles compress digest ignore files).1 ("/" ++ p1)
      = mapLookup (readFiles compress digest ignore files).1 ("/" ++ p2) ∧
    ∀ (us : String → Nat) (url : String) (toUpload : List String)
      (store : List (String × List Byte)), toUpload.Nodup →
      countUploadsTo (uploadLoop us url toUpload store).1
        (url ++ "/" ++ hexEncode (digest (compress c))) ≤ 1 := by
  constructor
  · rw [readFiles, readFilesGo_manifest_lookup compress digest files p1 c [] [] hnd h1,
      readFilesGo_manifest_lookup compress digest files p2 c [] [] hnd h2]
  · intro us url toUpload store hndu
    obtain ⟨l1, hs, he⟩ := uploadLoop_events_sublist us url toUpload store
    rw [he, countUploadsTo_map]
    exact Nat.le_trans (hs.count_le _) (List.nodup_iff_count_le_one.mp hndu _)

theorem identical_content_same_hash_witness :
    mapLookup (readFiles id id [] [FSFile.mk "a" [1], FSFile.mk "b" [1]]).1 ("/" ++ "a")
      = mapLookup (readFiles id id [] [FSFile.mk "a" [1], FSFile.mk "b" [1]]).1 ("/" ++ "b") ∧
    countUploadsTo (uploadLoop (fun _ => 200) "u" ["01"] []).1
      ("u" ++ "/" ++ hexEncode (id (id [1]))) ≤ 1 := by
  have t := identical_content_same_hash_at_most_once id id []
    [FSFile.mk "a" [1], FSFile.mk "b" [1]] "a" "b" [1] (by decide) (by decide) (by decide)
  exact ⟨t.1, t.2 (fun _ => 200) "u" ["01"] [] (by decide)⟩

/-- C10: a required hash missing from the ContentStore does not make the
upload loop fail: the map read yields the nil zero value, the POST for that
hash is issued with an empty body, and when every POST is answered with 200
the upload phase completes without error. -/
theorem missing_hash_uploads_nil_body (us : String → Nat) (url : String)
    (toUpload : List String) (store : List (String × List Byte)) (h : String)
    (hmem : h ∈ toUpload) (hmiss : mapLookup store h = none)
    (hok : ∀ x ∈ toUpload, us x = 200) :
    UploadEvent.mk (url ++ "/" ++ h) none ∈ (uploadLoop us url toUpload store).1 ∧
    (uploadLoop us url toUpload store).2 = none := by
  rw [uploadLoop_all200 us url toUpload store hok]
  refine ⟨?_, rfl⟩
  have he : uploadEventFor url store h = UploadEvent.mk (url ++ "/" ++ h) none := by
    rw [uploadEventFor, hmiss]
  rw [← he]
  exact List.mem_map_of_mem (uploadEventFor url store) hmem

theorem missing_hash_uploads_nil_body_witness :
    UploadEvent.mk ("u" ++ "/" ++ "x") none ∈ (uploadLoop (fun _ => 200) "u" ["x"] []).1 ∧
    (uploadLoop (fun _ => 200) "u" ["x"] []).2 = none :=
  missing_hash_uploads_nil_body (fun _ => 200) "u" ["x"] [] "x" (by decide) rfl (fun _ _ => rfl)

theorem uploadFiles_success_patch (us : String → Nat) (pr : Option String)
    (url : String) (l : List String) (store : List (String × List Byte))
    (h : (uploadFiles us pr url l store).2 = none) : finalizeOutcome pr = none := by
  rw [uploadFiles] at h
  rcases he : uploadLoop us url l store with ⟨evts, r⟩
  rw [he] at h
  cases r with
  | none => exact h
  | some hs => cases h

/-- C3: whenever the finalize Patch response carries a status other than
"FINALIZED", the run never issues a release-creation call, and if the
finalize call was actually reached the run aborts with the finalization
error carrying that status. -/
theorem release_gated_on_finalized_status (env : Env) (s : String)
    (hp : env.patchResult = some s) (hne : s ≠ "FINALIZED") :
    Event.createRelease ∉ (run env).1 ∧
    (Event.finalizePatch ∈ (run env).1 → (run env).2 = some (RunError.finalizationError s)) := by
  obtain ⟨cfg, cok, cvr, walk, pop, us, pr, rok, comp, dig⟩ := env
  dsimp only at hp
  subst hp
  cases cfg with
  | none => refine ⟨?_, ?_⟩ <;> simp [run]
  | some ignore =>
    cases cok with
    | false => refine ⟨?_, ?_⟩ <;> simp [run]
    | true =>
      cases cvr with
      | none => refine ⟨?_, ?_⟩ <;> simp [run]
      | some v =>
        cases walk with
        | none => refine ⟨?_, ?_⟩ <;> simp [run]
        | some files =>
          cases pop with
          | none => refine ⟨?_, ?_⟩ <;> simp [run]
          | some tu =>
            rcases hu : uploadFiles us (some s) tu.2 tu.1
                (readFiles comp dig ignore files).2 with ⟨evts, r⟩
            have hnr := uploadFiles_no_release us (some s) tu.2 tu.1
              (readFiles comp dig ignore files).2
            have hfr := uploadFiles_finalize_reached us (some s) tu.2 tu.1
              (readFiles comp dig ignore files).2
            rw [hu] at hnr hfr
            cases r with
            | some e =>
                have hrun : run ⟨some ignore, true, some v, some files, some tu,
                    us, some s, rok, comp, dig⟩
                    = (Event.createVersion :: Event.populateFiles :: evts, some e) := by
                  simp [run, hu]
                rw [hrun]
                constructor
                · intro hm
                  rcases List.mem_cons.mp hm with h1 | h1
                  · cases h1
                  rcases List.mem_cons.mp h1 with h2 | h2
                  · cases h2
                  exact hnr h2
                · intro hm
                  rcases List.mem_cons.mp hm with h1 | h1
                  · cases h1
                  rcases List.mem_cons.mp h1 with h2 | h2
                  · cases h2
                  have h3 := hfr h2
                  rw [finalizeOutcome, if_neg hne] at h3
                  exact h3
            | none =>
                exfalso
                have h2 := uploadFiles_success_patch us (some s) tu.2 tu.1
                  (readFiles comp dig ignore files).2 (by rw [hu])
                rw [finalizeOutcome, if_neg hne] at h2
                cases h2

theorem release_gated_on_finalized_status_witness :
    Event.createRelease ∉ (run envBadPatch).1 ∧
    (Event.finalizePatch ∈ (run envBadPatch).1 →
      (run envBadPatch).2 = some (RunError.finalizationError "ABANDONED")) :=
  release_gated_on_finalized_status envBadPatch "ABANDONED" rfl (by decide)

/-- C4 counterexample: a run that fails with a walk error has already issued
the version-creation remote call, because run creates the version
(main.go:50) before walking the public directory (main.go:55); so a run
failing with a local walk or hash error has contacted the remote service. -/
theorem walk_error_contacts_remote :
    (run envWalkFail).2 = some RunError.walkError ∧
    Event.createVersion ∈ (run envWalkFail).1 :=
  ⟨rfl, List.mem_singleton.mpr rfl⟩

/-- C4 amended: a run that fails with a config error has issued no remote
call; a run that fails with a walk or hash error has issued exactly one
remote call, the version creation, and no other. -/
theorem local_failure_remote_trace (env : Env) :
    ((run env).2 = some RunError.configError → (run env).1 = []) ∧
    ((run env).2 = some RunError.walkError → (run env).1 = [Event.createVersion]) := by
  obtain ⟨cfg, cok, cvr, walk, pop, us, pr, rok, comp, dig⟩ := env
  cases cfg with
  | none => exact ⟨(fun _ => rfl), (fun h => by cases Option.some.inj h)⟩
  | some ignore =>
    cases cok with
    | false =>
        exact ⟨(fun h => by cases Option.some.inj h), (fun h => by cases Option.some.inj h)⟩
    | true =>
      cases cvr with
      | none =>
          exact ⟨(fun h => by cases Option.some.inj h), (fun h => by cases Option.some.inj h)⟩
      | some v =>
        cases walk with
        | none => exact ⟨(fun h => by cases Option.some.inj h), (fun _ => rfl)⟩
        | some files =>
          cases pop with
          | none =>
              exact ⟨(fun h => by cases Option.some.inj h), (fun h => by cases Option.some.inj h)⟩
          | some tu =>
            rcases hu : uploadFiles us pr tu.2 tu.1
                (readFiles comp dig ignore files).2 with ⟨evts, r⟩
            have hk := uploadFiles_error_kind us pr tu.2 tu.1
              (readFiles comp dig ignore files).2
            rw [hu] at hk
            cases r with
            | some e =>
                constructor
                · intro h
                  simp only [run, hu] at h
                  exact absurd h hk.1
                · intro h
                  simp only [run, hu] at h
                  exact absurd h hk.2
            | none =>
                cases rok with
                | false =>
                    constructor
                    · intro h
                      simp only [run, hu] at h
                      cases Option.some.inj h
                    · intro h
                      simp only [run, hu] at h
                      cases Option.some.inj h
                | true =>
                    constructor
                    · intro h
                      simp only [run, hu] at h
                      exact Option.noConfusion h
                    · intro h
                      simp only [run, hu] at h
                      exact Option.noConfusion h

theorem local_failure_remote_trace_witness :
    (run envWalkFail).1 = [Event.createVersion] :=
  (local_failure_remote_trace envWalkFail).2 rfl
